import Mathlib

/-!
Verification of `src/civitai_bulk_uploader.py` against its specification.

The embedding translates the core of the script:
  * `sha256_file`        — streaming content hash (the hash primitive itself,
                           `hashlib.sha256`, is a library call and is abstracted
                           as parameters `update`, `ini`, `hexdigest`);
  * `init_db` / `already_uploaded` / `mark_uploaded`
                         — the SQLite dedup ledger (table `uploads` with
                           `sha256 TEXT UNIQUE`; `INSERT OR IGNORE`), modelled
                           as an association list keyed by the digest;
  * `group_batches`      — batching by parent folder or flat, chunked by
                           `post_size` (Python slicing `lst[i:i+post_size]`);
  * `upload_one_post`    — the per-post state machine, modelled as a pure
                           function of a `PageEnv` describing the outcomes of
                           the remote-UI interactions of one attempt;
  * `runLoop`            — the batch loop of `main_async` (attempt each batch,
                           on a truthy result record every file's digest when
                           the dedup connection is open).
-/

/-- A discovered image file: parent directory, base name, byte content.
Bytes are modelled as naturals. -/
structure SourceFile where
  dir : String
  name : String
  content : List Nat
deriving DecidableEq

def fullPath (f : SourceFile) : String := f.dir ++ "/" ++ f.name

/-- Structural worker for `chunkList`: the fuel only bounds the recursion
depth (each step consumes at least one element, so any fuel at least the
list's length yields the same value — `chunkGo_fuel`). -/
def chunkGo {α : Type} (sz : Nat) : Nat → List α → List (List α)
  | _, [] => []
  | 0, _ :: _ => []
  | fuel + 1, x :: xs => (x :: xs.take (sz - 1)) :: chunkGo sz fuel (xs.drop (sz - 1))

/-- Python slicing loop `for i in range(0, len(lst), sz): lst[i:i+sz]`,
and the read loop `iter(lambda: f.read(sz), b'')` of `sha256_file`.
The source only ever calls this with `sz ≥ 1` (`range` would reject 0). -/
def chunkList {α : Type} (sz : Nat) (l : List α) : List (List α) :=
  chunkGo sz l.length l

theorem chunkGo_fuel {α : Type} (sz : Nat) :
    ∀ (fuel fuel2 : Nat) (l : List α), l.length ≤ fuel → l.length ≤ fuel2 →
      chunkGo sz fuel l = chunkGo sz fuel2 l := by
  intro fuel
  induction fuel with
  | zero =>
    intro fuel2 l h1 _
    have : l = [] := List.length_eq_zero.mp (Nat.le_zero.mp h1)
    subst this
    cases fuel2 <;> rfl
  | succ n ih =>
    intro fuel2 l h1 h2
    cases l with
    | nil => cases fuel2 <;> rfl
    | cons x xs =>
      cases fuel2 with
      | zero => exact absurd h2 (by simp)
      | succ m =>
        simp only [chunkGo]
        congr 1
        apply ih
        · calc (xs.drop (sz - 1)).length ≤ xs.length := by
                simp [List.length_drop]
             _ ≤ n := by simpa using h1
        · calc (xs.drop (sz - 1)).length ≤ xs.length := by
                simp [List.length_drop]
             _ ≤ m := by simpa using h2

theorem chunkList_nil {α : Type} (sz : Nat) : chunkList sz ([] : List α) = [] := rfl

theorem chunkList_cons {α : Type} (sz : Nat) (x : α) (xs : List α) :
    chunkList sz (x :: xs) =
      (x :: xs.take (sz - 1)) :: chunkList sz (xs.drop (sz - 1)) := by
  simp only [chunkList, List.length_cons, chunkGo]
  congr 1
  exact chunkGo_fuel sz xs.length (xs.drop (sz - 1)).length (xs.drop (sz - 1))
    (by simp [List.length_drop]) (Nat.le_refl _)

/-- `f.read(1024 * 1024)` chunks of the file's bytes. -/
def fileChunks (bs : List Nat) : List (List Nat) := chunkList (1024 * 1024) bs

/-- `sha256_file`: feed the file's content to the hash, chunk by chunk, and
return the hex digest.  The hash primitive (`hashlib.sha256().update/ hexdigest`)
is external library code, abstracted as the parameters; the function of this
repository only decides what bytes are fed in which order. -/
def sha256_file {α : Type} (update : α → List Nat → α) (ini : α)
    (hexdigest : α → String) (f : SourceFile) : String :=
  hexdigest ((fileChunks f.content).foldl update ini)

/-- One row of the `uploads` table: (sha256, path).  The autoincrement id and
timestamp carry no information the claims touch. -/
abbrev Ledger := List (String × String)

/-- `init_db`: fresh table (CREATE TABLE IF NOT EXISTS), no rows. -/
def init_db : Ledger := []

/-- `SELECT 1 FROM uploads WHERE sha256 = ?` is non-empty. -/
def already_uploaded (L : Ledger) (digest : String) : Bool :=
  L.any (fun e => e.1 == digest)

/-- `INSERT OR IGNORE INTO uploads (sha256, path) VALUES (?, ?)`: with
`sha256 TEXT UNIQUE`, the insert is ignored when the digest is present. -/
def mark_uploaded (L : Ledger) (digest : String) (path : String) : Ledger :=
  if already_uploaded L digest then L else L ++ [(digest, path)]

/-- The dedupe filter of `main_async`: keep a file when its digest is not in
the ledger (the source builds `filtered` by appending exactly those files). -/
def dedupeFilter (fp : SourceFile → String) (L : Ledger)
    (files : List SourceFile) : List SourceFile :=
  files.filter (fun f => !(already_uploaded L (fp f)))

/-- Eligible set of one run: the dedupe filter runs only when hashes are not
skipped (`if not args.skip_hashes`). -/
def eligibleFiles (fp : SourceFile → String) (dedupe : Bool) (L : Ledger)
    (files : List SourceFile) : List SourceFile :=
  if dedupe then dedupeFilter fp L files else files

/-- `by_dir.setdefault(f.parent, []).append(f)` over a Python dict: groups keyed
by parent directory, keys in first-seen order, files appended in list order. -/
def insertByDir (acc : List (String × List SourceFile)) (f : SourceFile) :
    List (String × List SourceFile) :=
  match acc with
  | [] => [(f.dir, [f])]
  | (d, l) :: rest =>
    if d == f.dir then (d, l ++ [f]) :: rest else (d, l) :: insertByDir rest f

def byDir (files : List SourceFile) : List (String × List SourceFile) :=
  files.foldl insertByDir []

/-- `group_batches`: under "folder", partition by parent directory and chunk
each partition; otherwise chunk the whole list. -/
def group_batches (files : List SourceFile) (group_by : String)
    (post_size : Nat) : List (List SourceFile) :=
  if group_by == "folder" then
    ((byDir files).map (fun p => chunkList post_size p.2)).flatten
  else
    chunkList post_size files

/-!  The per-post state machine (`upload_one_post`) and the batch loop of
`main_async`.

`upload_one_post` performs a sequence of remote-UI interactions whose outcomes
are outside the program; we model one attempt's environment as a record of
those outcomes and translate the control flow of the source exactly:

  * navigation: `open_post_editor` is wrapped in
    `@retry(stop=stop_after_attempt(3), wait=wait_exponential_jitter(...))`;
    if each of the (at most) 3 attempts raises, tenacity re-raises and the
    exception escapes `upload_one_post` — there is no try/finally, so the page
    created just before is not closed on that path;
  * title fill and tag entry: the `fill` helper and the tag block swallow every
    exception, so neither can alter the control flow or the result; they are
    therefore not part of the trace;
  * attachment: `inputs.count()`; zero inputs raises
    `RuntimeError("no file inputs found")`, but the raise sits inside
    `try: ... except Exception`, which only logs — execution continues either
    way; `uploaded_ok` records whether some input accepted the files and is
    never read afterwards;
  * readiness: wait for thumbnails; on timeout fall back to
    `wait_for_load_state("networkidle")`, which is inside the `except` block
    and unguarded — if it raises, the exception escapes (page not closed);
  * dry run: return True before any publish click;
  * publish: `click` swallows exceptions and returns a Bool; a falsy first
    click returns False (page closed); then `wait_for_url` against the pattern
    matching "/posts/" plus digits plus an optional "/edit" (re.search
    semantics: the URL contains "/posts/" followed by a digit; the optional
    "/edit" suffix can never affect whether a match exists); on timeout a
    networkidle fallback runs inside try/except/pass (its outcome cannot
    influence anything), then exactly one more click-and-wait cycle decides
    the result.
-/

/-- A digit directly follows. -/
def headDigit : List Char → Bool
  | [] => false
  | c :: _ => c.isDigit

/-- The literal "/posts/". -/
def postsNeedle : List Char := ['/', 'p', 'o', 's', 't', 's', '/']

/-- re.search of the target pattern: some position starts "/posts/" followed
by at least one digit. -/
def searchPostsUrl : List Char → Bool
  | [] => false
  | c :: cs =>
    (postsNeedle.isPrefixOf (c :: cs) && headDigit ((c :: cs).drop 7))
      || searchPostsUrl cs

def targetUrlMatch (url : String) : Bool := searchPostsUrl url.data

/-- `page.wait_for_url(target_regex, ...)` succeeds iff some URL the page
reaches within the timeout window matches the pattern. -/
def wait_for_url (urls : List String) : Bool := urls.any targetUrlMatch

/-- Outcomes of the remote-UI interactions of one attempt.  Fields:
navigation attempt outcomes (goto raises iff the entry is false; missing
entries count as failures), file-input count, which input accepts
`set_input_files`, thumbnails appeared, readiness networkidle fallback
succeeded, first publish click performable, URLs seen during the first
`wait_for_url` window, second publish click performable, URLs seen during the
second window. -/
structure PageEnv where
  navOk : List Bool
  fileInputCount : Nat
  inputAccepts : Nat → Bool
  thumbsOk : Bool
  netIdleOk : Bool
  clickOk1 : Bool
  urls1 : List String
  clickOk2 : Bool
  urls2 : List String

/-- How one attempt ends: the returned Bool, or an exception escaping
`upload_one_post`. -/
inductive StepResult where
  | success
  | failed
  | exn
deriving DecidableEq

/-- Observables of one attempt: its end, how many times the publish control
was clicked (invocations of `click` on `publish_button`), whether
`page.close()` ran on the taken path, and the final value of the source's
`uploaded_ok` flag (which the source never reads). -/
structure AttemptTrace where
  result : StepResult
  publishClicks : Nat
  pageClosed : Bool
  attachOk : Bool
deriving DecidableEq

/-- `open_post_editor` under `stop_after_attempt(3)`: succeeds iff one of the
first three navigation attempts succeeds. -/
def navSucceeds (env : PageEnv) : Bool := (env.navOk.take 3).any id

/-- The attachment loop: `uploaded_ok` ends true iff some input index below
`count` accepts (the loop stops at the first); with `count = 0` the
RuntimeError is raised and immediately caught. -/
def attachOutcome (count : Nat) (accepts : Nat → Bool) : Bool :=
  (List.range count).any accepts

/-- One run of `upload_one_post`, following the source line by line
(see the block comment above for the correspondence). -/
def upload_one_post (env : PageEnv) (dry_run : Bool) : AttemptTrace :=
  if !(navSucceeds env) then
    { result := .exn, publishClicks := 0, pageClosed := false,
      attachOk := false }
  else
    let attached := attachOutcome env.fileInputCount env.inputAccepts
    if !(env.thumbsOk || env.netIdleOk) then
      { result := .exn, publishClicks := 0, pageClosed := false,
        attachOk := attached }
    else if dry_run then
      { result := .success, publishClicks := 0, pageClosed := true,
        attachOk := attached }
    else if !env.clickOk1 then
      { result := .failed, publishClicks := 1, pageClosed := true,
        attachOk := attached }
    else if wait_for_url env.urls1 then
      { result := .success, publishClicks := 1, pageClosed := true,
        attachOk := attached }
    else if !env.clickOk2 then
      { result := .failed, publishClicks := 2, pageClosed := true,
        attachOk := attached }
    else if wait_for_url env.urls2 then
      { result := .success, publishClicks := 2, pageClosed := true,
        attachOk := attached }
    else
      { result := .failed, publishClicks := 2, pageClosed := true,
        attachOk := attached }

/-- The per-file recording of one confirmed batch, guarded in the source by
`if ok:` and `if conn:`. -/
def markBatch (fp : SourceFile → String) (L : Ledger)
    (batch : List SourceFile) : Ledger :=
  batch.foldl (fun acc f => mark_uploaded acc (fp f) (fullPath f)) L

/-- The ledger update the loop body performs for one finished attempt. -/
def batchWrite (fp : SourceFile → String) (dedupe : Bool) (t : AttemptTrace)
    (batch : List SourceFile) (L : Ledger) : Ledger :=
  if t.result = StepResult.success then
    if dedupe then markBatch fp L batch else L
  else L

/-- Outcome of the batch loop of `main_async`: final ledger, `success_total`,
how many batches were attempted, and whether an exception escaped an attempt
(aborting the loop, and with it the run). -/
structure RunState where
  ledger : Ledger
  successes : Nat
  attempted : Nat
  aborted : Bool
deriving DecidableEq

/-- The batch loop of `main_async`: run the attempt; an escaping exception
ends the run there; otherwise count successes, write the ledger for a
successful batch when dedupe is on, and continue. -/
def runLoop (fp : SourceFile → String) (dedupe : Bool) (dry_run : Bool) :
    List (List SourceFile × PageEnv) → Ledger → RunState
  | [], L => { ledger := L, successes := 0, attempted := 0, aborted := false }
  | (batch, env) :: rest, L =>
    let t := upload_one_post env dry_run
    if t.result = StepResult.exn then
      { ledger := L, successes := 0, attempted := 1, aborted := true }
    else
      let s := runLoop fp dedupe dry_run rest (batchWrite fp dedupe t batch L)
      { ledger := s.ledger,
        successes := (if t.result = StepResult.success then 1 else 0) + s.successes,
        attempted := 1 + s.attempted,
        aborted := s.aborted }

/-! Helper lemmas about the ledger. -/

theorem already_mark_self (L : Ledger) (d p : String) :
    already_uploaded (mark_uploaded L d p) d = true := by
  unfold mark_uploaded
  by_cases h : already_uploaded L d = true
  · simp [h]
  · simp only [Bool.not_eq_true] at h
    unfold already_uploaded at h ⊢
    simp [h, List.any_append]

theorem already_mark_mono (L : Ledger) (d p d0 : String)
    (h : already_uploaded L d0 = true) :
    already_uploaded (mark_uploaded L d p) d0 = true := by
  unfold mark_uploaded
  by_cases hc : already_uploaded L d = true
  · simp [hc, h]
  · simp only [Bool.not_eq_true] at hc
    simp only [hc, if_false, Bool.false_eq_true]
    unfold already_uploaded at h ⊢
    simp [List.any_append, h]

theorem markBatch_mono (fp : SourceFile → String) (d0 : String) :
    ∀ (batch : List SourceFile) (L : Ledger),
      already_uploaded L d0 = true →
      already_uploaded (markBatch fp L batch) d0 = true := by
  intro batch
  induction batch with
  | nil => intro L h; exact h
  | cons f fs ih =>
    intro L h
    exact ih _ (already_mark_mono L (fp f) (fullPath f) d0 h)

theorem markBatch_self (fp : SourceFile → String) (f : SourceFile) :
    ∀ (batch : List SourceFile) (L : Ledger), f ∈ batch →
      already_uploaded (markBatch fp L batch) (fp f) = true := by
  intro batch
  induction batch with
  | nil => intro L h; simp at h
  | cons g gs ih =>
    intro L h
    rcases List.mem_cons.mp h with rfl | h2
    · exact markBatch_mono fp (fp f) gs _ (already_mark_self L (fp f) (fullPath f))
    · exact ih _ h2

theorem batchWrite_mono (fp : SourceFile → String) (dedupe : Bool)
    (t : AttemptTrace) (batch : List SourceFile) (L : Ledger) (d0 : String)
    (h : already_uploaded L d0 = true) :
    already_uploaded (batchWrite fp dedupe t batch L) d0 = true := by
  unfold batchWrite
  split
  · split
    · exact markBatch_mono fp d0 batch L h
    · exact h
  · exact h

theorem runLoop_ledger_mono (fp : SourceFile → String) (dedupe dry : Bool) :
    ∀ (work : List (List SourceFile × PageEnv)) (L : Ledger) (d0 : String),
      already_uploaded L d0 = true →
      already_uploaded (runLoop fp dedupe dry work L).ledger d0 = true := by
  intro work
  induction work with
  | nil => intro L d0 h; simpa [runLoop] using h
  | cons hd tl ih =>
    intro L d0 h
    obtain ⟨b0, e0⟩ := hd
    simp only [runLoop]
    by_cases hexn : (upload_one_post e0 dry).result = StepResult.exn
    · rw [if_pos hexn]; exact h
    · rw [if_neg hexn]
      exact ih _ d0 (batchWrite_mono fp dedupe _ b0 L d0 h)

/-! Helper lemmas about chunking and batching. -/

theorem chunkList_flatten {α : Type} (sz : Nat) (l : List α) :
    (chunkList sz l).flatten = l := by
  have key : ∀ (fuel : Nat) (l2 : List α), l2.length ≤ fuel →
      (chunkGo sz fuel l2).flatten = l2 := by
    intro fuel
    induction fuel with
    | zero =>
      intro l2 h
      have : l2 = [] := List.length_eq_zero.mp (Nat.le_zero.mp h)
      subst this; rfl
    | succ n ih =>
      intro l2 h
      cases l2 with
      | nil => rfl
      | cons x xs =>
        simp only [chunkGo, List.flatten_cons]
        have hlen : (xs.drop (sz - 1)).length ≤ n := by
          simp only [List.length_drop]
          have hx : xs.length ≤ n := by simpa using h
          omega
        rw [ih (xs.drop (sz - 1)) hlen]
        simp [List.take_append_drop]
  exact key l.length l (Nat.le_refl _)

theorem chunkList_sizes {α : Type} (sz : Nat) (hsz : 1 ≤ sz) (l : List α)
    (c : List α) (hc : c ∈ chunkList sz l) : c ≠ [] ∧ c.length ≤ sz := by
  have key : ∀ (fuel : Nat) (l2 : List α), c ∈ chunkGo sz fuel l2 →
      c ≠ [] ∧ c.length ≤ sz := by
    intro fuel
    induction fuel with
    | zero => intro l2 hc2; cases l2 <;> simp [chunkGo] at hc2
    | succ n ih =>
      intro l2 hc2
      cases l2 with
      | nil => simp [chunkGo] at hc2
      | cons x xs =>
        simp only [chunkGo, List.mem_cons] at hc2
        rcases hc2 with rfl | hc2
        · refine ⟨by simp, ?_⟩
          simp only [List.length_cons, List.length_take]
          have := Nat.min_le_left (sz - 1) xs.length
          omega
        · exact ih _ hc2
  exact key l.length l hc

theorem chunkList_covers {α : Type} (sz : Nat) (l : List α) (x : α)
    (hx : x ∈ l) : ∃ c ∈ chunkList sz l, x ∈ c := by
  have h := chunkList_flatten sz l
  rw [← h] at hx
  exact List.mem_flatten.mp hx

theorem chunkList_subset {α : Type} (sz : Nat) (l : List α) (c : List α)
    (hc : c ∈ chunkList sz l) (x : α) (hx : x ∈ c) : x ∈ l := by
  rw [← chunkList_flatten sz l]
  exact List.mem_flatten.mpr ⟨c, hc, hx⟩

/-- All files stored under a directory key of the Python dict really have that
parent directory. -/
def dirInv (acc : List (String × List SourceFile)) : Prop :=
  ∀ p ∈ acc, ∀ f ∈ p.2, f.dir = p.1

theorem insertByDir_dirInv (f : SourceFile) :
    ∀ (acc : List (String × List SourceFile)),
      dirInv acc → dirInv (insertByDir acc f) := by
  intro acc
  induction acc with
  | nil =>
    intro _ p hp g hg
    simp only [insertByDir, List.mem_singleton] at hp
    subst hp
    simp only [List.mem_singleton] at hg
    subst hg
    rfl
  | cons hd tl ih =>
    intro hinv
    obtain ⟨d, l⟩ := hd
    simp only [insertByDir]
    by_cases hdir : (d == f.dir) = true
    · rw [if_pos hdir]
      intro p hp g hg
      rcases List.mem_cons.mp hp with rfl | hp2
      · rcases List.mem_append.mp hg with hgl | hgf
        · exact hinv (d, l) (by simp) g hgl
        · simp only [List.mem_singleton] at hgf
          subst hgf
          exact (beq_iff_eq.mp hdir).symm
      · exact hinv p (by simp [hp2]) g hg
    · rw [if_neg hdir]
      intro p hp g hg
      rcases List.mem_cons.mp hp with rfl | hp2
      · exact hinv (d, l) (by simp) g hg
      · exact ih (fun q hq => hinv q (by simp [hq])) p hp2 g hg

theorem byDir_dirInv (files : List SourceFile) : dirInv (byDir files) := by
  have key : ∀ (fs : List SourceFile) (acc), dirInv acc →
      dirInv (fs.foldl insertByDir acc) := by
    intro fs
    induction fs with
    | nil => intro acc h; exact h
    | cons g gs ih => intro acc h; exact ih _ (insertByDir_dirInv g acc h)
  refine key files [] ?_
  intro p hp
  simp at hp

theorem insertByDir_mem_keep (g f : SourceFile) :
    ∀ (acc : List (String × List SourceFile)),
      (∃ p ∈ acc, g ∈ p.2) → ∃ p ∈ insertByDir acc f, g ∈ p.2 := by
  intro acc
  induction acc with
  | nil => intro h; obtain ⟨p, hp, _⟩ := h; simp at hp
  | cons hd tl ih =>
    intro h
    obtain ⟨d, l⟩ := hd
    obtain ⟨p, hp, hg⟩ := h
    simp only [insertByDir]
    by_cases hdir : (d == f.dir) = true
    · rw [if_pos hdir]
      rcases List.mem_cons.mp hp with rfl | hp2
      · exact ⟨(d, l ++ [f]), by simp, by simp [hg]⟩
      · exact ⟨p, by simp [hp2], hg⟩
    · rw [if_neg hdir]
      rcases List.mem_cons.mp hp with rfl | hp2
      · exact ⟨(d, l), by simp, hg⟩
      · obtain ⟨q, hq, hgq⟩ := ih ⟨p, hp2, hg⟩
        exact ⟨q, by simp [hq], hgq⟩

theorem insertByDir_mem_new (f : SourceFile) :
    ∀ (acc : List (String × List SourceFile)),
      ∃ p ∈ insertByDir acc f, f ∈ p.2 := by
  intro acc
  induction acc with
  | nil => exact ⟨(f.dir, [f]), by simp [insertByDir], by simp⟩
  | cons hd tl ih =>
    obtain ⟨d, l⟩ := hd
    simp only [insertByDir]
    by_cases hdir : (d == f.dir) = true
    · rw [if_pos hdir]
      exact ⟨(d, l ++ [f]), by simp, by simp⟩
    · rw [if_neg hdir]
      obtain ⟨q, hq, hfq⟩ := ih
      exact ⟨q, by simp [hq], hfq⟩

theorem byDir_covers (files : List SourceFile) :
    ∀ f ∈ files, ∃ p ∈ byDir files, f ∈ p.2 := by
  have key : ∀ (fs : List SourceFile) (acc) (g : SourceFile),
      (g ∈ fs ∨ ∃ p ∈ acc, g ∈ p.2) →
      ∃ p ∈ fs.foldl insertByDir acc, g ∈ p.2 := by
    intro fs
    induction fs with
    | nil =>
      intro acc g h
      rcases h with h | h
      · simp at h
      · exact h
    | cons x xs ih =>
      intro acc g h
      rcases h with h | h
      · rcases List.mem_cons.mp h with rfl | h2
        · exact ih _ g (Or.inr (insertByDir_mem_new g acc))
        · exact ih _ g (Or.inl h2)
      · exact ih _ g (Or.inr (insertByDir_mem_keep g x acc h))
  intro f hf
  exact key files [] f (Or.inl hf)

theorem group_batches_folder (files : List SourceFile) (sz : Nat) :
    group_batches files "folder" sz =
      ((byDir files).map (fun p => chunkList sz p.2)).flatten := rfl

theorem mem_group_batches_folder (files : List SourceFile) (sz : Nat)
    (b : List SourceFile) (hb : b ∈ group_batches files "folder" sz) :
    ∃ p ∈ byDir files, b ∈ chunkList sz p.2 := by
  rw [group_batches_folder] at hb
  obtain ⟨cs, hcs, hbc⟩ := List.mem_flatten.mp hb
  obtain ⟨p, hp, rfl⟩ := List.mem_map.mp hcs
  exact ⟨p, hp, hbc⟩

theorem group_batches_covers (files : List SourceFile) (gby : String)
    (sz : Nat) : ∀ f ∈ files, ∃ b ∈ group_batches files gby sz, f ∈ b := by
  intro f hf
  unfold group_batches
  by_cases hg : (gby == "folder") = true
  · rw [if_pos hg]
    obtain ⟨p, hp, hfp⟩ := byDir_covers files f hf
    obtain ⟨c, hc, hfc⟩ := chunkList_covers sz p.2 f hfp
    refine ⟨c, List.mem_flatten.mpr ⟨chunkList sz p.2, ?_, hc⟩, hfc⟩
    exact List.mem_map.mpr ⟨p, hp, rfl⟩
  · rw [if_neg hg]
    exact chunkList_covers sz files f hf

theorem zip_covers {α β : Type} :
    ∀ (l1 : List α) (l2 : List β), l1.length ≤ l2.length →
      ∀ a ∈ l1, ∃ b, (a, b) ∈ l1.zip l2 := by
  intro l1
  induction l1 with
  | nil => intro l2 _ a ha; simp at ha
  | cons x xs ih =>
    intro l2 hlen a ha
    cases l2 with
    | nil => simp at hlen
    | cons y ys =>
      rcases List.mem_cons.mp ha with rfl | ha2
      · exact ⟨y, by simp⟩
      · obtain ⟨b, hb⟩ := ih ys (by simpa using hlen) a ha2
        exact ⟨b, by simp [hb]⟩

/-! Helper lemmas about the dedupe filter and the batch loop. -/

theorem not_mem_dedupeFilter (fp : SourceFile → String) (L : Ledger)
    (files : List SourceFile) (f : SourceFile)
    (h : already_uploaded L (fp f) = true) : f ∉ dedupeFilter fp L files := by
  intro hmem
  have hp := (List.mem_filter.mp hmem).2
  simp [h] at hp

theorem dedupeFilter_eq_nil (fp : SourceFile → String) (L : Ledger)
    (files : List SourceFile)
    (h : ∀ f ∈ files, already_uploaded L (fp f) = true) :
    dedupeFilter fp L files = [] := by
  unfold dedupeFilter
  rw [List.filter_eq_nil_iff]
  intro f hf
  simp [h f hf]

theorem runLoop_no_exn (fp : SourceFile → String) (dedupe dry : Bool) :
    ∀ (work : List (List SourceFile × PageEnv)) (L : Ledger),
      (∀ p ∈ work, (upload_one_post p.2 dry).result ≠ StepResult.exn) →
      (runLoop fp dedupe dry work L).attempted = work.length ∧
      (runLoop fp dedupe dry work L).aborted = false := by
  intro work
  induction work with
  | nil => intro L _; simp [runLoop]
  | cons hd tl ih =>
    intro L hall
    obtain ⟨batch, env⟩ := hd
    have hhd : (upload_one_post env dry).result ≠ StepResult.exn :=
      hall (batch, env) (by simp)
    have htl : ∀ p ∈ tl, (upload_one_post p.2 dry).result ≠ StepResult.exn :=
      fun p hp => hall p (by simp [hp])
    simp only [runLoop]
    rw [if_neg hhd]
    have := ih (batchWrite fp dedupe (upload_one_post env dry) batch L) htl
    simp [this.1, this.2, Nat.add_comm]

theorem runLoop_abort (fp : SourceFile → String) (dedupe dry : Bool) :
    ∀ (pre : List (List SourceFile × PageEnv)) (batch : List SourceFile)
      (env : PageEnv) (post : List (List SourceFile × PageEnv)) (L : Ledger),
      (∀ p ∈ pre, (upload_one_post p.2 dry).result ≠ StepResult.exn) →
      (upload_one_post env dry).result = StepResult.exn →
      (runLoop fp dedupe dry (pre ++ (batch, env) :: post) L).attempted =
        pre.length + 1 ∧
      (runLoop fp dedupe dry (pre ++ (batch, env) :: post) L).aborted = true := by
  intro pre
  induction pre with
  | nil =>
    intro batch env post L _ hexn
    simp [runLoop, hexn]
  | cons hd tl ih =>
    intro batch env post L hall hexn
    obtain ⟨b0, e0⟩ := hd
    have hhd : (upload_one_post e0 dry).result ≠ StepResult.exn :=
      hall (b0, e0) (by simp)
    have htl : ∀ p ∈ tl, (upload_one_post p.2 dry).result ≠ StepResult.exn :=
      fun p hp => hall p (by simp [hp])
    simp only [List.cons_append, runLoop]
    rw [if_neg hhd]
    have := ih batch env post
      (batchWrite fp dedupe (upload_one_post e0 dry) b0 L) htl hexn
    simp [this.1, this.2]
    omega

theorem runLoop_marks (fp : SourceFile → String) (dry : Bool) :
    ∀ (work : List (List SourceFile × PageEnv)) (L : Ledger)
      (batch : List SourceFile) (env : PageEnv) (f : SourceFile),
      (∀ p ∈ work, (upload_one_post p.2 dry).result = StepResult.success) →
      (batch, env) ∈ work → f ∈ batch →
      already_uploaded (runLoop fp true dry work L).ledger (fp f) = true := by
  intro work
  induction work with
  | nil => intro L batch env f _ hmem _; simp at hmem
  | cons hd tl ih =>
    intro L batch env f hall hmem hf
    obtain ⟨b0, e0⟩ := hd
    have h0 : (upload_one_post e0 dry).result = StepResult.success :=
      hall (b0, e0) (by simp)
    have htl : ∀ p ∈ tl, (upload_one_post p.2 dry).result = StepResult.success :=
      fun p hp => hall p (by simp [hp])
    simp only [runLoop]
    rw [if_neg (by simp [h0])]
    rcases List.mem_cons.mp hmem with heq | hmem2
    · have hb : batch = b0 := congrArg Prod.fst heq
      subst hb
      have hled : already_uploaded
          (batchWrite fp true (upload_one_post e0 dry) batch L) (fp f) = true := by
        unfold batchWrite
        rw [if_pos h0, if_pos rfl]
        exact markBatch_self fp f batch L hf
      exact runLoop_ledger_mono fp true dry tl _ (fp f) hled
    · exact ih _ batch env f htl hmem2 hf

theorem mark_noop (L : Ledger) (d p : String)
    (h : already_uploaded L d = true) : mark_uploaded L d p = L := by
  unfold mark_uploaded
  rw [if_pos h]

/-! Concrete fixtures for witnesses and counterexamples.  The hash primitive
is instantiated with an executable stand-in (sum-of-bytes-and-lengths state,
unary rendering) so attempts and runs evaluate inside the kernel. -/

def demoUpdate (a : Nat) (c : List Nat) : Nat :=
  a + c.length + c.foldl (fun x y => x + y) 0

def demoHex (n : Nat) : String := String.mk (List.replicate n 'h')

def fpDemo (f : SourceFile) : String := sha256_file demoUpdate 0 demoHex f

def fA : SourceFile := { dir := "root/d1", name := "a.png", content := [1, 2, 3] }

def fB : SourceFile := { dir := "root/d2", name := "b.png", content := [1, 2, 3] }

/-- 45 files in one folder. -/
def f45 : List SourceFile :=
  List.replicate 45 { dir := "d", name := "f", content := [] }

/-- An attempt where everything works: navigation on the first try, one
accepting file input, thumbnails render, the first publish click lands and
the URL confirms. -/
def goodEnv : PageEnv :=
  { navOk := [true], fileInputCount := 1, inputAccepts := fun _ => true,
    thumbsOk := true, netIdleOk := true, clickOk1 := true,
    urls1 := ["https://civitai.com/posts/101/edit"], clickOk2 := true,
    urls2 := [] }

/-- An attempt whose three navigation tries all fail: the bounded retry is
exhausted and the tenacity error escapes `upload_one_post`. -/
def navFailEnv : PageEnv :=
  { navOk := [false, false, false], fileInputCount := 1,
    inputAccepts := fun _ => true, thumbsOk := true, netIdleOk := true,
    clickOk1 := true, urls1 := ["https://civitai.com/posts/101"],
    clickOk2 := true, urls2 := [] }

/-- An attempt where the first wait-for-URL window never matches but the
second publish cycle confirms (navigation needed its second try, thumbnails
timed out and the networkidle fallback carried readiness). -/
def retryEnv : PageEnv :=
  { navOk := [false, true], fileInputCount := 2,
    inputAccepts := fun i => i == 1, thumbsOk := false, netIdleOk := true,
    clickOk1 := true, urls1 := ["https://civitai.com/create"],
    clickOk2 := true, urls2 := ["https://civitai.com/posts/42"] }

/-- An attempt where neither wait-for-URL window ever matches the post
pattern: both publish cycles fail to confirm. -/
def confirmFailEnv : PageEnv :=
  { navOk := [true], fileInputCount := 1, inputAccepts := fun _ => true,
    thumbsOk := true, netIdleOk := false, clickOk1 := true, urls1 := [],
    clickOk2 := true, urls2 := ["https://civitai.com/models/7"] }

/-- A page presenting zero file-attachment controls, with everything else
(navigation, readiness, publish, confirmation) succeeding. -/
def attachMissingEnv : PageEnv :=
  { navOk := [true], fileInputCount := 0, inputAccepts := fun _ => false,
    thumbsOk := true, netIdleOk := true, clickOk1 := true,
    urls1 := ["https://civitai.com/posts/123"], clickOk2 := true,
    urls2 := [] }

/-- C1: the spec says an attempt finding no file-attachment control
terminates in Failed immediately, without reaching publish and without ledger
writes.  In the code, `raise RuntimeError("no file inputs found")` sits
inside the upload step's own try/except-Exception block, which only logs,
and the `uploaded_ok` flag is computed but never read.  Evaluating the
embedded attempt on a page with zero file inputs: the attachment step fails
(attachOk = false), yet the attempt clicks publish once, returns success,
and the coordinator then records the batch's fingerprint in the ledger —
contradicting the claim on every point past the missing-control detection. -/
theorem c1_missing_attachment_not_failed :
    attachMissingEnv.fileInputCount = 0 ∧
    (upload_one_post attachMissingEnv false).attachOk = false ∧
    (upload_one_post attachMissingEnv false).publishClicks = 1 ∧
    (upload_one_post attachMissingEnv false).result = StepResult.success ∧
    (runLoop fpDemo true false [([fA], attachMissingEnv)] init_db).ledger =
      [(fpDemo fA, fullPath fA)] :=
  ⟨rfl, rfl, rfl, rfl, rfl⟩

/-- C2 counterexample: a two-batch run where the first batch's navigation
fails all three retry attempts.  The claim says the remaining batch is still
attempted; in the code the retry exhaustion propagates out of
`upload_one_post`, nothing catches it around the loop body, and the run
ends after attempting only the first batch. -/
theorem c2_counterexample :
    ([([fA], navFailEnv), ([fB], goodEnv)] :
      List (List SourceFile × PageEnv)).length = 2 ∧
    navSucceeds navFailEnv = false ∧
    (runLoop fpDemo true false [([fA], navFailEnv), ([fB], goodEnv)]
      init_db).attempted = 1 ∧
    (runLoop fpDemo true false [([fA], navFailEnv), ([fB], goodEnv)]
      init_db).aborted = true :=
  ⟨rfl, rfl, rfl, rfl⟩

/-- C2 amended: a batch attempt that returns a failure result is contained —
every batch of the run is still attempted and the run does not abort; but an
attempt from which an exception escapes (in particular exhaustion of the
bounded navigation retry) aborts the run at that batch, in addition to the
fatal startup-class errors. -/
theorem c2_failure_containment (fp : SourceFile → String) (dedupe dry : Bool)
    (work : List (List SourceFile × PageEnv)) (L : Ledger)
    (pre post : List (List SourceFile × PageEnv)) (batch : List SourceFile)
    (env : PageEnv) :
    ((∀ p ∈ work, (upload_one_post p.2 dry).result ≠ StepResult.exn) →
      (runLoop fp dedupe dry work L).attempted = work.length ∧
      (runLoop fp dedupe dry work L).aborted = false) ∧
    (navSucceeds env = false →
      (upload_one_post env dry).result = StepResult.exn) ∧
    ((∀ p ∈ pre, (upload_one_post p.2 dry).result ≠ StepResult.exn) →
      (upload_one_post env dry).result = StepResult.exn →
      (runLoop fp dedupe dry (pre ++ (batch, env) :: post) L).attempted =
        pre.length + 1 ∧
      (runLoop fp dedupe dry (pre ++ (batch, env) :: post) L).aborted =
        true) := by
  refine ⟨runLoop_no_exn fp dedupe dry work L, ?_,
    runLoop_abort fp dedupe dry pre batch env post L⟩
  intro h
  simp [upload_one_post, h]

theorem c2_witness :
    (runLoop fpDemo true false [([fB], goodEnv)] init_db).attempted = 1 ∧
    (runLoop fpDemo true false [([fB], goodEnv)] init_db).aborted = false ∧
    (upload_one_post navFailEnv false).result = StepResult.exn ∧
    (runLoop fpDemo true false
      ([([fB], goodEnv)] ++ ([fA], navFailEnv) :: []) init_db).attempted = 2 ∧
    (runLoop fpDemo true false
      ([([fB], goodEnv)] ++ ([fA], navFailEnv) :: []) init_db).aborted =
      true := by
  have h := c2_failure_containment fpDemo true false [([fB], goodEnv)] init_db
    [([fB], goodEnv)] [] [fA] navFailEnv
  have hne : ∀ p ∈ ([([fB], goodEnv)] : List (List SourceFile × PageEnv)),
      (upload_one_post p.2 false).result ≠ StepResult.exn := by
    intro p hp
    rw [List.mem_singleton] at hp
    subst hp
    decide
  have h1 := h.1 hne
  have h2 := h.2.1 (by decide)
  have h3 := h.2.2 hne h2
  exact ⟨h1.1, h1.2, h2, h3.1, h3.2⟩

/-- C3 counterexample: navigation failing all retries raises out of the
attempt; on that path the page opened for the attempt is never closed,
although the claim promises closure on every exit path including
exceptions. -/
theorem c3_counterexample :
    (upload_one_post navFailEnv false).result = StepResult.exn ∧
    (upload_one_post navFailEnv false).pageClosed = false :=
  ⟨rfl, rfl⟩

/-- C3 amended: the page is closed on every path on which `upload_one_post`
returns a result (success or failure); it is not closed when an exception
escapes the attempt (navigation-retry exhaustion, or the readiness
networkidle fallback raising). -/
theorem c3_page_release (env : PageEnv) (dry : Bool) :
    ((upload_one_post env dry).result ≠ StepResult.exn →
      (upload_one_post env dry).pageClosed = true) ∧
    ((upload_one_post env dry).result = StepResult.exn →
      (upload_one_post env dry).pageClosed = false) := by
  unfold upload_one_post
  cases h1 : navSucceeds env <;>
    cases h2 : env.thumbsOk <;>
      cases h3 : env.netIdleOk <;>
        cases dry <;>
          cases h4 : env.clickOk1 <;>
            cases h5 : wait_for_url env.urls1 <;>
              cases h6 : env.clickOk2 <;>
                cases h7 : wait_for_url env.urls2 <;>
                  simp_all

theorem c3_witness :
    (upload_one_post goodEnv false).pageClosed = true ∧
    (upload_one_post navFailEnv true).pageClosed = false :=
  ⟨(c3_page_release goodEnv false).1 (by decide),
    (c3_page_release navFailEnv true).2 (by decide)⟩

/-- C4: for a non-dry-run attempt that reached the publish phase and whose
first publish click was performed: a URL matching the post pattern within
the first wait confirms the attempt with a single click; otherwise exactly
one more publish-click-and-wait cycle runs (two clicks in total) and decides
between success and failure; and a failed attempt causes no ledger write for
its batch in the coordinator. -/
theorem c4_publish_confirmation (env : PageEnv)
    (hnav : navSucceeds env = true)
    (hready : env.thumbsOk = true ∨ env.netIdleOk = true)
    (hclick : env.clickOk1 = true) :
    (wait_for_url env.urls1 = true →
      (upload_one_post env false).result = StepResult.success ∧
      (upload_one_post env false).publishClicks = 1) ∧
    (wait_for_url env.urls1 = false →
      (upload_one_post env false).publishClicks = 2 ∧
      ((upload_one_post env false).result = StepResult.success ↔
        (env.clickOk2 = true ∧ wait_for_url env.urls2 = true)) ∧
      ((upload_one_post env false).result = StepResult.failed ↔
        ¬(env.clickOk2 = true ∧ wait_for_url env.urls2 = true))) ∧
    (∀ (fp : SourceFile → String) (dedupe : Bool) (batch : List SourceFile)
      (L : Ledger),
      (upload_one_post env false).result = StepResult.failed →
      batchWrite fp dedupe (upload_one_post env false) batch L = L) := by
  have hr : (env.thumbsOk || env.netIdleOk) = true := by
    rcases hready with h | h <;> simp [h]
  refine ⟨?_, ?_, ?_⟩
  · intro hu
    simp [upload_one_post, hnav, hr, hclick, hu]
  · intro hu
    cases h6 : env.clickOk2 <;> cases h7 : wait_for_url env.urls2 <;>
      simp [upload_one_post, hnav, hr, hclick, hu, h6, h7]
  · intro fp dedupe batch L hfail
    unfold batchWrite
    rw [hfail]
    simp

theorem c4_witness :
    (upload_one_post retryEnv false).publishClicks = 2 ∧
    (upload_one_post retryEnv false).result = StepResult.success ∧
    (upload_one_post confirmFailEnv false).result = StepResult.failed ∧
    batchWrite fpDemo true (upload_one_post confirmFailEnv false) [fA]
      init_db = init_db := by
  have h1 := c4_publish_confirmation retryEnv (by decide)
    (Or.inr (by decide)) (by decide)
  have h2 := c4_publish_confirmation confirmFailEnv (by decide)
    (Or.inl (by decide)) (by decide)
  have hu1 : wait_for_url retryEnv.urls1 = false := by decide
  have hu2 : wait_for_url confirmFailEnv.urls1 = false := by decide
  have hs := h1.2.1 hu1
  have hsucc : (upload_one_post retryEnv false).result = StepResult.success :=
    hs.2.1.mpr ⟨by decide, by decide⟩
  have hfail : (upload_one_post confirmFailEnv false).result =
      StepResult.failed :=
    (h2.2.1 hu2).2.2.mpr (by decide)
  exact ⟨hs.1, hsucc, hfail, h2.2.2 fpDemo true [fA] init_db hfail⟩

/-- C5 counterexample: a dry-run attempt whose navigation fails all three
retry tries ends with an escaping exception, not in a success-reported
state, although the claim promises success for every dry-run attempt. -/
theorem c5_counterexample :
    (upload_one_post navFailEnv true).result = StepResult.exn ∧
    (upload_one_post navFailEnv true).result ≠ StepResult.success :=
  ⟨rfl, by decide⟩

/-- C5 amended: in dry-run mode the publish control is never invoked on any
path; and every dry-run attempt on which no exception escapes (navigation
within the retry bound and readiness both succeeded) reports success. -/
theorem c5_dry_run (env : PageEnv) :
    (upload_one_post env true).publishClicks = 0 ∧
    ((upload_one_post env true).result ≠ StepResult.exn →
      (upload_one_post env true).result = StepResult.success) := by
  unfold upload_one_post
  cases h1 : navSucceeds env <;>
    cases h2 : env.thumbsOk <;>
      cases h3 : env.netIdleOk <;>
        simp_all

theorem c5_witness :
    (upload_one_post goodEnv true).publishClicks = 0 ∧
    (upload_one_post goodEnv true).result = StepResult.success :=
  ⟨(c5_dry_run goodEnv).1, (c5_dry_run goodEnv).2 (by decide)⟩

/-- C6: in dry-run mode with dedupe enabled, an attempt that reaches the
publish phase reports success without a publish click, the coordinator then
records every file of the batch in the ledger, and each of those files is
excluded from the eligible set of any later run over any file list. -/
theorem c6_dry_run_marks_ledger (fp : SourceFile → String) (env : PageEnv)
    (batch : List SourceFile) (L : Ledger) (files : List SourceFile)
    (hnav : navSucceeds env = true)
    (hready : env.thumbsOk = true ∨ env.netIdleOk = true) :
    (upload_one_post env true).result = StepResult.success ∧
    (upload_one_post env true).publishClicks = 0 ∧
    (∀ f ∈ batch, already_uploaded
      (batchWrite fp true (upload_one_post env true) batch L) (fp f) =
        true) ∧
    (∀ f ∈ batch, f ∉ eligibleFiles fp true
      (batchWrite fp true (upload_one_post env true) batch L) files) := by
  have hr : (env.thumbsOk || env.netIdleOk) = true := by
    rcases hready with h | h <;> simp [h]
  have hres : (upload_one_post env true).result = StepResult.success := by
    simp [upload_one_post, hnav, hr]
  have hclk : (upload_one_post env true).publishClicks = 0 := by
    simp [upload_one_post, hnav, hr]
  have hmark : ∀ f ∈ batch, already_uploaded
      (batchWrite fp true (upload_one_post env true) batch L) (fp f) =
        true := by
    intro f hf
    have hbw : batchWrite fp true (upload_one_post env true) batch L =
        markBatch fp L batch := by
      unfold batchWrite
      rw [if_pos hres, if_pos rfl]
    rw [hbw]
    exact markBatch_self fp f batch L hf
  refine ⟨hres, hclk, hmark, ?_⟩
  intro f hf
  have h := hmark f hf
  unfold eligibleFiles
  rw [if_pos rfl]
  exact not_mem_dedupeFilter fp _ files f h

theorem c6_witness :
    (upload_one_post goodEnv true).result = StepResult.success ∧
    already_uploaded
      (batchWrite fpDemo true (upload_one_post goodEnv true) [fA] init_db)
      (fpDemo fA) = true ∧
    fA ∉ eligibleFiles fpDemo true
      (batchWrite fpDemo true (upload_one_post goodEnv true) [fA] init_db)
      [fA, fB] := by
  have h := c6_dry_run_marks_ledger fpDemo goodEnv [fA] init_db [fA, fB]
    (by decide) (Or.inl (by decide))
  exact ⟨h.1, h.2.2.1 fA (by simp), h.2.2.2 fA (by simp)⟩

/-- C7: `record` (mark_uploaded) is idempotent: re-inserting an existing
fingerprint is a no-op returning the ledger unchanged; every insert
preserves the at-most-one-entry-per-fingerprint bound; and inserting the
same fingerprint twice into the fresh store leaves exactly one entry for
it. -/
theorem c7_record_idempotent :
    (∀ (L : Ledger) (d p p2 : String),
      mark_uploaded (mark_uploaded L d p) d p2 = mark_uploaded L d p) ∧
    (∀ (L : Ledger) (d p d0 : String),
      (L.filter (fun e => e.1 == d0)).length ≤ 1 →
      ((mark_uploaded L d p).filter (fun e => e.1 == d0)).length ≤ 1) ∧
    (∀ (d p p2 : String),
      ((mark_uploaded (mark_uploaded init_db d p) d p2).filter
        (fun e => e.1 == d)).length = 1) := by
  have part1 : ∀ (L : Ledger) (d p p2 : String),
      mark_uploaded (mark_uploaded L d p) d p2 = mark_uploaded L d p :=
    fun L d p p2 => mark_noop _ d p2 (already_mark_self L d p)
  refine ⟨part1, ?_, ?_⟩
  · intro L d p d0 h
    unfold mark_uploaded
    by_cases hc : already_uploaded L d = true
    · rw [if_pos hc]; exact h
    · simp only [Bool.not_eq_true] at hc
      rw [if_neg (by simp [hc])]
      rw [List.filter_append, List.length_append]
      by_cases hd : (d == d0) = true
      · have hde : d = d0 := beq_iff_eq.mp hd
        subst hde
        have hnil : L.filter (fun e => e.1 == d) = [] := by
          rw [List.filter_eq_nil_iff]
          intro e he hbe
          have hany : L.any (fun e => e.1 == d) = true :=
            List.any_eq_true.mpr ⟨e, he, hbe⟩
          unfold already_uploaded at hc
          rw [hany] at hc
          cases hc
        rw [hnil]
        simp [hd]
      · have hone : ([(d, p)].filter (fun e => e.1 == d0)) = [] := by
          simp only [Bool.not_eq_true] at hd
          simp [List.filter, hd]
        rw [hone]
        simpa using h
  · intro d p p2
    rw [part1 init_db d p p2]
    unfold init_db mark_uploaded already_uploaded
    simp

theorem c7_witness :
    mark_uploaded (mark_uploaded [("k1", "q")] "k2" "r") "k2" "s" =
      mark_uploaded [("k1", "q")] "k2" "r" ∧
    (([("k1", "q")] : Ledger).filter (fun e => e.1 == "k2")).length ≤ 1 ∧
    ((mark_uploaded [("k1", "q")] "k2" "r").filter
      (fun e => e.1 == "k2")).length ≤ 1 ∧
    ((mark_uploaded (mark_uploaded init_db "k2" "r") "k2" "s").filter
      (fun e => e.1 == "k2")).length = 1 :=
  ⟨c7_record_idempotent.1 [("k1", "q")] "k2" "r" "s",
    by decide,
    c7_record_idempotent.2.1 [("k1", "q")] "k2" "r" "k2" (by decide),
    c7_record_idempotent.2.2 "k2" "r" "s"⟩

/-- C8: folder batching never mixes parent directories within one batch,
every batch is non-empty with at most maxSize files, each directory
partition's chunks concatenate back to the partition in order, and 45 files
in one folder with maxSize 20 yield exactly the batch sizes 20, 20, 5 in
discovery order. -/
theorem c8_folder_batching (files : List SourceFile) (sz : Nat)
    (hsz : 1 ≤ sz) :
    (∀ b ∈ group_batches files "folder" sz, ∀ f ∈ b, ∀ g ∈ b,
      f.dir = g.dir) ∧
    (∀ b ∈ group_batches files "folder" sz, b ≠ [] ∧ b.length ≤ sz) ∧
    (∀ p ∈ byDir files, (chunkList sz p.2).flatten = p.2) ∧
    ((group_batches f45 "folder" 20).map List.length = [20, 20, 5] ∧
      (group_batches f45 "folder" 20).flatten = f45) := by
  refine ⟨?_, ?_, ?_, by decide, by decide⟩
  · intro b hb f hf g hg
    obtain ⟨p, hp, hbc⟩ := mem_group_batches_folder files sz b hb
    have hinv := byDir_dirInv files
    have h1 : f.dir = p.1 := hinv p hp f (chunkList_subset sz p.2 b hbc f hf)
    have h2 : g.dir = p.1 := hinv p hp g (chunkList_subset sz p.2 b hbc g hg)
    rw [h1, h2]
  · intro b hb
    obtain ⟨p, hp, hbc⟩ := mem_group_batches_folder files sz b hb
    exact chunkList_sizes sz hsz p.2 b hbc
  · intro p _
    exact chunkList_flatten sz p.2

theorem c8_witness :
    (group_batches f45 "folder" 20).map List.length = [20, 20, 5] :=
  (c8_folder_batching f45 20 (by decide)).2.2.2.1

/-- C9: any file whose fingerprint is already in the ledger is excluded from
the eligible set; and after a first fully confirmed run (every batch's
attempt successful) over the filtered files, a second run over the unchanged
file list has zero eligible files — and zero batches, since batching the
empty list yields no batches. -/
theorem c9_second_run_empty (fp : SourceFile → String)
    (files : List SourceFile) (L0 : Ledger) (gby : String) (sz : Nat)
    (dry : Bool) (envs : List PageEnv)
    (hlen : (group_batches (eligibleFiles fp true L0 files) gby sz).length ≤
      envs.length)
    (hall : ∀ e ∈ envs,
      (upload_one_post e dry).result = StepResult.success) :
    (∀ (L : Ledger) (f : SourceFile), already_uploaded L (fp f) = true →
      f ∉ eligibleFiles fp true L files) ∧
    eligibleFiles fp true
      (runLoop fp true dry
        ((group_batches (eligibleFiles fp true L0 files) gby sz).zip envs)
        L0).ledger files = [] ∧
    group_batches ([] : List SourceFile) gby sz = [] := by
  refine ⟨?_, ?_, ?_⟩
  · intro L f h
    unfold eligibleFiles
    rw [if_pos rfl]
    exact not_mem_dedupeFilter fp L files f h
  · have hwall : ∀ p ∈ (group_batches (eligibleFiles fp true L0 files)
        gby sz).zip envs,
        (upload_one_post p.2 dry).result = StepResult.success := by
      intro p hp
      obtain ⟨b, e⟩ := p
      exact hall e (List.of_mem_zip hp).2
    have hfmark : ∀ f ∈ files, already_uploaded
        (runLoop fp true dry
          ((group_batches (eligibleFiles fp true L0 files) gby sz).zip envs)
          L0).ledger (fp f) = true := by
      intro f hf
      by_cases h0 : already_uploaded L0 (fp f) = true
      · exact runLoop_ledger_mono fp true dry _ L0 (fp f) h0
      · have hfe : f ∈ eligibleFiles fp true L0 files := by
          unfold eligibleFiles dedupeFilter
          rw [if_pos rfl]
          refine List.mem_filter.mpr ⟨hf, ?_⟩
          simp only [Bool.not_eq_true] at h0
          simp [h0]
        obtain ⟨b, hb, hfb⟩ := group_batches_covers
          (eligibleFiles fp true L0 files) gby sz f hfe
        obtain ⟨e, hbe⟩ := zip_covers
          (group_batches (eligibleFiles fp true L0 files) gby sz) envs
          hlen b hb
        exact runLoop_marks fp dry _ L0 b e f hwall hbe hfb
    unfold eligibleFiles
    rw [if_pos rfl]
    exact dedupeFilter_eq_nil fp _ files hfmark
  · unfold group_batches
    by_cases hg : (gby == "folder") = true
    · rw [if_pos hg]; rfl
    · rw [if_neg hg]; rfl

theorem c9_witness :
    eligibleFiles fpDemo true
      (runLoop fpDemo true false
        ((group_batches (eligibleFiles fpDemo true init_db [fA, fB])
          "folder" 1).zip [goodEnv, goodEnv])
        init_db).ledger [fA, fB] = [] := by
  have hall : ∀ e ∈ [goodEnv, goodEnv],
      (upload_one_post e false).result = StepResult.success := by
    intro e he
    rcases List.mem_cons.mp he with rfl | he2
    · decide
    · rw [List.mem_singleton] at he2
      subst he2
      decide
  exact (c9_second_run_empty fpDemo [fA, fB] init_db "folder" 1 false
    [goodEnv, goodEnv] (by decide) hall).2.1

/-- C10: the fingerprint is a function of the byte content alone — two files
with identical bytes get identical digests whatever their directory or name,
for every hash primitive the streaming loop is run with. -/
theorem c10_fingerprint_content_only {α : Type} (update : α → List Nat → α)
    (ini : α) (hexdigest : α → String) (f g : SourceFile)
    (h : f.content = g.content) :
    sha256_file update ini hexdigest f = sha256_file update ini hexdigest g := by
  unfold sha256_file
  rw [h]

theorem c10_witness :
    fA.dir ≠ fB.dir ∧ fA.name ≠ fB.name ∧ fA.content = fB.content ∧
    fpDemo fA = fpDemo fB :=
  ⟨by decide, by decide, rfl,
    c10_fingerprint_content_only demoUpdate 0 demoHex fA fB rfl⟩
